import Mathlib

/- Shallow embedding of the hierarchy-scoped visibility engine of the
TaskAutomationBackend repository (src/main.py, src/models.py).

Modelling conventions:
- The relational store is a `List User` / `List Task` in insertion order;
  `db.query(...).filter(...).first()` is `List.find?` and `.all()` with a
  filter is `List.filter` (both respect insertion order, matching the
  autoincrement-primary-key order a SQLAlchemy session returns rows in).
- Python truthiness on `Optional[str]` values (`if user.manager_id:`,
  `if employee_id and ...`) is `optTruthy`: `None` and `""` are falsy.
- `raise HTTPException(...)` is `Except.error` with an `ApiError`
  constructor per distinct failure; returning normally is `Except.ok`.
- The recursive `get_all_subordinates` is embedded with a fuel parameter;
  `none` means the call tree did not complete within the given fuel, and
  divergence of the Python recursion corresponds to `none` for every fuel.
- `secrets.token_hex` id generation is modelled by an explicitly supplied
  fresh-id argument (`genId`).
- Commit-time uniqueness violations of the `users.emp_id` / `users.emp_email`
  and `tasks.id` columns (reachable in bulk upload because the session has
  `autoflush=False`, so in-loop duplicate checks only see the pre-upload
  snapshot) surface as a database error and leave the store unchanged.
-/

namespace AutomationBackend

/-- Employee record, mirroring the `users` table of src/models.py
(columns copied by `create_user` in src/main.py). -/
structure User where
  emp_name : String
  emp_id : String
  emp_email : String
  emp_phone : Option String
  emp_designation : Option String
  emp_department : Option String
  emp_hierarchy : Option String
  manager_id : Option String
  deriving DecidableEq

/-- Task record, mirroring the `tasks` table of src/models.py. -/
structure Task where
  id : String
  task_name : String
  task_description : Option String
  task_status : Option String
  task_assigned_to : Option String
  task_assigned_by : Option String
  task_assigned_date : Option String
  task_due_date : Option String
  task_priority : Option String
  task_tags : Option String
  task_notes : Option String
  task_created_at : Option String
  task_updated_at : Option String
  task_duration : Option String
  deriving DecidableEq

/-- Request body for task creation/update (`TaskCreate` in src/models.py):
`id` is optional, `task_name` is required, the rest are optional. -/
structure TaskCreate where
  id : Option String
  task_name : String
  task_description : Option String
  task_status : Option String
  task_assigned_to : Option String
  task_assigned_by : Option String
  task_assigned_date : Option String
  task_due_date : Option String
  task_priority : Option String
  task_tags : Option String
  task_notes : Option String
  task_created_at : Option String
  task_updated_at : Option String
  task_duration : Option String
  deriving DecidableEq

/-- Partial-update request body (`UserUpdate` in src/models.py): every
field optional, `none` meaning "leave unchanged". -/
structure UserUpdate where
  emp_name : Option String
  emp_id : Option String
  emp_email : Option String
  emp_phone : Option String
  emp_designation : Option String
  emp_department : Option String
  emp_hierarchy : Option String
  manager_id : Option String
  deriving DecidableEq

/-- One CSV row of the `/users/upload` endpoint: `none` models a column
that is absent from the file (`col not in row` in src/main.py). -/
structure UserRow where
  emp_id : Option String
  emp_name : Option String
  emp_email : Option String
  emp_phone : Option String
  emp_designation : Option String
  emp_department : Option String
  emp_hierarchy : Option String
  manager_id : Option String
  deriving DecidableEq

/-- One CSV row of the `/tasks/upload` endpoint. -/
structure TaskRow where
  id : Option String
  task_name : Option String
  task_description : Option String
  task_status : Option String
  task_assigned_to : Option String
  task_assigned_by : Option String
  task_assigned_date : Option String
  task_due_date : Option String
  task_priority : Option String
  task_tags : Option String
  task_notes : Option String
  task_created_at : Option String
  task_updated_at : Option String
  task_duration : Option String
  deriving DecidableEq

/-- The distinct `HTTPException` failures raised by the embedded handlers. -/
inductive ApiError where
  | ManagerNotFound
  | SelfManagementNotAllowed
  | InsufficientManagerRank
  | RankTooHighForAssignment
  | UserNotFound
  | DuplicateEmpId
  | DuplicateEmail
  | NewEmpIdExists
  | NewEmailExists
  | TaskIdExists
  | TaskDurationZero
  | TaskNoAssignee
  | AssignedUserNotFound
  | TaskNotFound
  | RowMissingTaskName
  | RowMissingAssignee
  | DbCommitFailed
  deriving DecidableEq

/-- Python truthiness of an `Optional[str]`: `None` and `""` are falsy. -/
def optTruthy : Option String → Bool
  | none => false
  | some s => !(s == "")

/-- The `HIERARCHY_RANKS` dict of src/main.py, as an association list. -/
def HIERARCHY_RANKS : List (String × Nat) :=
  [("SE1", 1), ("SE2", 1), ("SSE", 1), ("TL", 1),
   ("L1", 2),
   ("L2", 3),
   ("EM", 4),
   ("CTO", 5),
   ("ADMIN", 5),
   ("SUPERADMIN", 6),
   ("OWNER", 7)]

/-- Python `str.upper()`, modelled character-wise (`Char.toUpper` agrees
with it on ASCII, which covers every rank-table key). -/
def upperAscii (s : String) : String :=
  String.mk (s.data.map Char.toUpper)

/-- `get_rank` of src/main.py: 0 for falsy input, otherwise a
case-insensitive dict lookup (`HIERARCHY_RANKS.get(designation.upper(), 0)`)
defaulting to 0. Pure: no side effects, mirroring the Python function. -/
def get_rank (designation : Option String) : Nat :=
  match designation with
  | none => 0
  | some d => if d == "" then 0 else (HIERARCHY_RANKS.lookup (upperAscii d)).getD 0

/-- `db.query(UserModel).filter(UserModel.emp_id == eid).first()`. -/
def findUser (db : List User) (eid : String) : Option User :=
  db.find? (fun u => u.emp_id == eid)

/-- `validate_manager_hierarchy` of src/main.py (the Hierarchy Validator).
`employeeId` is the `employee_id: Optional[str] = None` parameter; the
self-management branch is guarded by `if employee_id and manager_id ==
employee_id:` (Python truthiness). -/
def validate_manager_hierarchy (db : List User) (managerId : String)
    (employeeDesignation : Option String) (employeeId : Option String) :
    Except ApiError Unit :=
  match findUser db managerId with
  | none => .error .ManagerNotFound
  | some manager =>
    let managerRank := get_rank manager.emp_designation
    let employeeRank := get_rank employeeDesignation
    if optTruthy employeeId && (employeeId == some managerId) then
      if 5 ≤ employeeRank then .ok () else .error .SelfManagementNotAllowed
    else if managerRank ≤ employeeRank then .error .InsufficientManagerRank
    else .ok ()

/-- Folds the body of the `for user in direct_reports:` loop of
`get_all_subordinates`: add the report's id, then merge its recursively
computed subordinates. `recur` is the recursive call at one fuel less;
if any recursive call fails to complete (`none`), the whole loop does. -/
def subsFromReports (recur : String → Option (Finset String)) :
    List User → Finset String → Option (Finset String)
  | [], acc => some acc
  | u :: rest, acc =>
    match recur u.emp_id with
    | none => none
    | some s => subsFromReports recur rest (insert u.emp_id acc ∪ s)

/-- `get_all_subordinates` of src/main.py (the Subordinate Resolver),
fuel-indexed: `some s` when the recursion completes within the fuel bound
with result set `s`, `none` otherwise. The direct reports are
`db.query(UserModel).filter(UserModel.manager_id == manager_emp_id).all()`. -/
def get_all_subordinates (db : List User) : Nat → String → Option (Finset String)
  | 0, _ => none
  | fuel + 1, managerId =>
    subsFromReports (get_all_subordinates db fuel)
      (db.filter (fun u => u.manager_id == some managerId)) ∅

/-- `get_user_view_scope` of src/main.py (the View-Scope Calculator):
the scope starts as `{empId}` and is extended with the subordinate set
when the viewer's rank is at least 2. -/
def get_user_view_scope (db : List User) (fuel : Nat) (empId : String) :
    Option (Finset String) :=
  match findUser db empId with
  | none => some ∅
  | some user =>
    if 2 ≤ get_rank user.emp_designation then
      match get_all_subordinates db fuel empId with
      | none => none
      | some subs => some ({empId} ∪ subs)
    else some {empId}

/-- `validate_assignee_eligibility` of src/main.py (the Assignment
Eligibility Checker). -/
def validate_assignee_eligibility (user : User) : Except ApiError Unit :=
  if 4 ≤ get_rank user.emp_designation then
    .error .RankTooHighForAssignment
  else .ok ()

/-- `create_user` (POST /user) of src/main.py: emp_id uniqueness check,
emp_email uniqueness check, hierarchy validation when `user.manager_id`
is truthy (with `employee_id := user.emp_id`), then insert. -/
def create_user (db : List User) (user : User) : Except ApiError (List User) :=
  if (findUser db user.emp_id).isSome then .error .DuplicateEmpId
  else if (db.find? (fun u => u.emp_email == user.emp_email)).isSome then
    .error .DuplicateEmail
  else
    match (if optTruthy user.manager_id then
            validate_manager_hierarchy db (user.manager_id.getD "")
              user.emp_designation (some user.emp_id)
           else .ok ()) with
    | .error e => .error e
    | .ok _ => .ok (db ++ [user])

/-- Python `a or b` on `Optional[str]` operands (used for the effective
designation in `update_user`). -/
def pyOr (a b : Option String) : Option String :=
  if optTruthy a then a else b

/-- The field-by-field `if ... is not None:` assignments of `update_user`. -/
def applyUserUpdate (dbUser : User) (upd : UserUpdate) : User :=
  { emp_name := upd.emp_name.getD dbUser.emp_name
    emp_id := upd.emp_id.getD dbUser.emp_id
    emp_email := upd.emp_email.getD dbUser.emp_email
    emp_phone := match upd.emp_phone with | some v => some v | none => dbUser.emp_phone
    emp_designation := match upd.emp_designation with | some v => some v | none => dbUser.emp_designation
    emp_department := match upd.emp_department with | some v => some v | none => dbUser.emp_department
    emp_hierarchy := match upd.emp_hierarchy with | some v => some v | none => dbUser.emp_hierarchy
    manager_id := match upd.manager_id with | some v => some v | none => dbUser.manager_id }

/-- In-place mutation of the single ORM row found by `emp_id == eid`:
replace the first matching record, keep the rest. -/
def replaceFirstUser : List User → String → User → List User
  | [], _, _ => []
  | u :: rest, eid, nu =>
    if u.emp_id == eid then nu :: rest else u :: replaceFirstUser rest eid nu

/-- `update_user` (PUT /user/\x7bemp_id\x7d) of src/main.py. Uniqueness
checks and hierarchy validation are guarded by Python truthiness, while
the assignments are guarded by `is not None`; the hierarchy is only
revalidated when the manager reference is truthy and different from the
stored one, using the effective designation `user_update.emp_designation
or db_user.emp_designation`. -/
def update_user (db : List User) (empId : String) (upd : UserUpdate) :
    Except ApiError (List User) :=
  match findUser db empId with
  | none => .error .UserNotFound
  | some dbUser =>
    if optTruthy upd.emp_id && !(upd.emp_id == some empId)
        && (findUser db (upd.emp_id.getD "")).isSome then
      .error .NewEmpIdExists
    else if optTruthy upd.emp_email && !(upd.emp_email == some dbUser.emp_email)
        && (db.find? (fun u => u.emp_email == upd.emp_email.getD "")).isSome then
      .error .NewEmailExists
    else
      match (if optTruthy upd.manager_id && !(upd.manager_id == dbUser.manager_id) then
              validate_manager_hierarchy db (upd.manager_id.getD "")
                (pyOr upd.emp_designation dbUser.emp_designation) (some dbUser.emp_id)
             else .ok ()) with
      | .error e => .error e
      | .ok _ => .ok (replaceFirstUser db empId (applyUserUpdate dbUser upd))

/-- The `required_cols` key-presence check of `upload_users`. -/
def rowRequiredOk (row : UserRow) : Bool :=
  row.emp_id.isSome && row.emp_name.isSome && row.emp_email.isSome

/-- The `UserModel(...)` construction of `upload_users`. -/
def userFromRow (row : UserRow) : User :=
  { emp_name := row.emp_name.getD ""
    emp_id := row.emp_id.getD ""
    emp_email := row.emp_email.getD ""
    emp_phone := row.emp_phone
    emp_designation := row.emp_designation
    emp_department := row.emp_department
    emp_hierarchy := row.emp_hierarchy
    manager_id := row.manager_id }

/-- One iteration of the `for row in csv_reader:` loop of `upload_users`,
accumulating (pending adds, added count, skipped count). The duplicate
check queries the pre-upload snapshot `db` (the session does not autoflush
pending adds). No hierarchy validation is performed. -/
def uploadUserStep (db : List User) (acc : List User × Nat × Nat) (row : UserRow) :
    List User × Nat × Nat :=
  if !(rowRequiredOk row) then (acc.1, acc.2.1, acc.2.2 + 1)
  else if (db.find? (fun u =>
      u.emp_id == row.emp_id.getD "" || u.emp_email == row.emp_email.getD "")).isSome then
    (acc.1, acc.2.1, acc.2.2 + 1)
  else (acc.1 ++ [userFromRow row], acc.2.1 + 1, acc.2.2)

/-- `upload_users` (POST /users/upload) of src/main.py: per-row skip logic,
then a single commit. A commit that would violate the unique constraints on
`emp_id`/`emp_email` (possible only between rows of the same file, since
rows colliding with stored users were skipped) fails and leaves the store
unchanged. Returns the new store with the (added, skipped) counts. -/
def upload_users (db : List User) (rows : List UserRow) :
    Except ApiError (List User × Nat × Nat) :=
  let r := rows.foldl (uploadUserStep db) ([], 0, 0)
  if (r.1.map (·.emp_id)).Nodup ∧ (r.1.map (·.emp_email)).Nodup then
    .ok (db ++ r.1, r.2.1, r.2.2)
  else .error .DbCommitFailed

/-- `db.query(TaskModel).filter(TaskModel.id == tid).first()`. -/
def findTask (tasks : List Task) (tid : String) : Option Task :=
  tasks.find? (fun t => t.id == tid)

/-- The `TaskModel(...)` construction of `create_task`. -/
def taskFromCreate (t : TaskCreate) (tid : String) : Task :=
  { id := tid
    task_name := t.task_name
    task_description := t.task_description
    task_status := t.task_status
    task_assigned_to := t.task_assigned_to
    task_assigned_by := t.task_assigned_by
    task_assigned_date := t.task_assigned_date
    task_due_date := t.task_due_date
    task_priority := t.task_priority
    task_tags := t.task_tags
    task_notes := t.task_notes
    task_created_at := t.task_created_at
    task_updated_at := t.task_updated_at
    task_duration := t.task_duration }

/-- The `if not task.id: task.id = secrets.token_hex(8)` step: the task id
used, with `genId` standing for the generated hex string. -/
def resolvedTaskId (tid : Option String) (genId : String) : String :=
  if optTruthy tid then tid.getD "" else genId

/-- `create_task` (POST /tasks) of src/main.py. `genId` stands for the
`secrets.token_hex(8)` value used when `task.id` is falsy. -/
def create_task (users : List User) (tasks : List Task) (t : TaskCreate)
    (genId : String) : Except ApiError (List Task) :=
  if (findTask tasks (resolvedTaskId t.id genId)).isSome then .error .TaskIdExists
  else if t.task_duration == some "0" then .error .TaskDurationZero
  else if !(optTruthy t.task_assigned_to) then .error .TaskNoAssignee
  else
    match findUser users (t.task_assigned_to.getD "") with
    | none => .error .AssignedUserNotFound
    | some assignedUser =>
      match validate_assignee_eligibility assignedUser with
      | .error e => .error e
      | .ok _ => .ok (tasks ++ [taskFromCreate t (resolvedTaskId t.id genId)])

/-- The field assignments of `update_task`: every column except `id` is
overwritten from the request body. -/
def applyTaskUpdate (dbTask : Task) (t : TaskCreate) : Task :=
  { id := dbTask.id
    task_name := t.task_name
    task_description := t.task_description
    task_status := t.task_status
    task_assigned_to := t.task_assigned_to
    task_assigned_by := t.task_assigned_by
    task_assigned_date := t.task_assigned_date
    task_due_date := t.task_due_date
    task_priority := t.task_priority
    task_tags := t.task_tags
    task_notes := t.task_notes
    task_created_at := t.task_created_at
    task_updated_at := t.task_updated_at
    task_duration := t.task_duration }

/-- In-place mutation of the task row found by `id == tid`. -/
def replaceFirstTask : List Task → String → Task → List Task
  | [], _, _ => []
  | t :: rest, tid, nt =>
    if t.id == tid then nt :: rest else t :: replaceFirstTask rest tid nt

/-- `update_task` (PUT /tasks/\x7btask_id\x7d) of src/main.py. -/
def update_task (users : List User) (tasks : List Task) (taskId : String)
    (t : TaskCreate) : Except ApiError (List Task) :=
  match findTask tasks taskId with
  | none => .error .TaskNotFound
  | some dbTask =>
    if t.task_duration == some "0" then .error .TaskDurationZero
    else if !(optTruthy t.task_assigned_to) then .error .TaskNoAssignee
    else
      match findUser users (t.task_assigned_to.getD "") with
      | none => .error .AssignedUserNotFound
      | some assignedUser =>
        match validate_assignee_eligibility assignedUser with
        | .error e => .error e
        | .ok _ => .ok (replaceFirstTask tasks taskId (applyTaskUpdate dbTask t))

/-- The `TaskModel(...)` construction of the insert phase of `upload_tasks`
(`item.get("task_status", "todo")` defaults a missing status column). -/
def taskFromRow (row : TaskRow) (tid duration : String) : Task :=
  { id := tid
    task_name := row.task_name.getD ""
    task_description := row.task_description
    task_status := some (row.task_status.getD "todo")
    task_assigned_to := row.task_assigned_to
    task_assigned_by := row.task_assigned_by
    task_assigned_date := row.task_assigned_date
    task_due_date := row.task_due_date
    task_priority := row.task_priority
    task_tags := row.task_tags
    task_notes := row.task_notes
    task_created_at := row.task_created_at
    task_updated_at := row.task_updated_at
    task_duration := some duration }

/-- The pre-validation loop of `upload_tasks`: each row is paired with the
`secrets.token_hex(8)` value that would be generated for it if its `id`
column is falsy. Fails on the first offending row. -/
def validateTaskRows (users : List User) :
    List (TaskRow × String) → Except ApiError (List Task)
  | [] => .ok []
  | (row, gid) :: rest =>
    if !(optTruthy row.task_name) then .error .RowMissingTaskName
    else if !(optTruthy row.task_assigned_to) then .error .RowMissingAssignee
    else if row.task_duration.getD "0" == "0" then .error .TaskDurationZero
    else
      match findUser users (row.task_assigned_to.getD "") with
      | none => .error .AssignedUserNotFound
      | some user =>
        match validate_assignee_eligibility user with
        | .error e => .error e
        | .ok _ =>
          match validateTaskRows users rest with
          | .error e => .error e
          | .ok restTasks =>
            .ok (taskFromRow row (resolvedTaskId row.id gid)
              (row.task_duration.getD "0") :: restTasks)

/-- `upload_tasks` (POST /tasks/upload) of src/main.py: validate every row
first, then insert. The per-item id-duplication query only sees the
pre-upload snapshot (no autoflush), so duplicate ids inside one file
surface as a commit failure that leaves the store unchanged. -/
def upload_tasks (users : List User) (tasks : List Task)
    (rows : List (TaskRow × String)) : Except ApiError (List Task) :=
  match validateTaskRows users rows with
  | .error e => .error e
  | .ok validated =>
    if (validated.find? (fun t => (findTask tasks t.id).isSome)).isSome then
      .error .TaskIdExists
    else if (validated.map (·.id)).Nodup then .ok (tasks ++ validated)
    else .error .DbCommitFailed

/-- `get_users` (GET /user) of src/main.py: with a truthy `user_id` query
parameter, the result is the persisted users whose `emp_id` lies in
`get_all_subordinates(db, user_id)` (no caller authorization, and the
target itself is naturally excluded); otherwise all users. -/
def get_users (db : List User) (userId : Option String) (fuel : Nat) :
    Option (List User) :=
  if optTruthy userId then
    match get_all_subordinates db fuel (userId.getD "") with
    | none => none
    | some subs => some (db.filter (fun u => decide (u.emp_id ∈ subs)))
  else some db

/-- `get_tasks` (GET /tasks) of src/main.py: caller scope, target root by
Python truthiness of `user_id`, silent empty denial, then display scope
filtering (`task_assigned_to.in_(display_scope)`; a SQL `IN` never matches
a NULL assignee). -/
def get_tasks (users : List User) (tasks : List Task) (currentEmpId : String)
    (userId : Option String) (fuel : Nat) : Option (List Task) :=
  match get_user_view_scope users fuel currentEmpId with
  | none => none
  | some currentScope =>
    let targetRootId := if optTruthy userId then userId.getD "" else currentEmpId
    if targetRootId ∉ currentScope then some []
    else
      match get_user_view_scope users fuel targetRootId with
      | none => none
      | some displayScope =>
        some (tasks.filter (fun t =>
          match t.task_assigned_to with
          | some a => decide (a ∈ displayScope)
          | none => false))

/-- Spec-side relation (§4.3 of the spec): employee `u` is a transitive
subordinate of identity `x`, i.e. `u`'s manager chain eventually reaches
`x` — either `u`'s stored manager reference is `x` itself, or it is the
`emp_id` of some stored employee whose chain reaches `x`. -/
inductive ChainReaches (db : List User) : User → String → Prop where
  | direct {u : User} {x : String} :
      u ∈ db → u.manager_id = some x → ChainReaches db u x
  | step {u v : User} {x : String} :
      u ∈ db → v ∈ db → u.manager_id = some v.emp_id →
      ChainReaches db v x → ChainReaches db u x

/-- The identities the Subordinate Resolver is specified to return for `x`. -/
def SubIdsSet (db : List User) (x : String) : Set String :=
  {i | ∃ u, u ∈ db ∧ u.emp_id = i ∧ ChainReaches db u x}

/-- A cycle-free store: no stored employee is a transitive subordinate of
its own identity. -/
def CycleFree (db : List User) : Prop :=
  ∀ u ∈ db, ¬ ChainReaches db u u.emp_id

/-- Every stored manager edge is strictly rank-increasing: whenever a
stored employee's manager reference equals the `emp_id` of a stored
employee, the latter has strictly greater rank. -/
def RankIncreasing (db : List User) : Prop :=
  ∀ u ∈ db, ∀ v ∈ db, u.manager_id = some v.emp_id →
    get_rank u.emp_designation < get_rank v.emp_designation

/-- Subordinate resolution terminates for `x`: the recursion completes
within some fuel bound. -/
def SubResolutionTerminates (db : List User) (x : String) : Prop :=
  ∃ fuel s, get_all_subordinates db fuel x = some s

/-- Employee stores reachable from the empty store by the core's write
operations in which every manager reference that was set or changed was
accepted by the Hierarchy Validator. `create_user`/`update_user` invoke
the validator themselves exactly when the (new) manager reference is
truthy (resp. truthy and different from the stored one), so success of
the operation implies acceptance; a `some ""` manager reference would be
stored without consulting the validator and is therefore outside this
predicate, as is any bulk-imported row that sets a manager reference
(the CSV endpoint never consults the validator). -/
inductive ValidatedReach : List User → Prop where
  | nil : ValidatedReach []
  | create {db db' : List User} {u : User} :
      ValidatedReach db → u.manager_id ≠ some "" →
      create_user db u = .ok db' → ValidatedReach db'
  | update {db db' : List User} {eid : String} {upd : UserUpdate} :
      ValidatedReach db → upd.manager_id ≠ some "" →
      update_user db eid upd = .ok db' → ValidatedReach db'
  | upload {db db' : List User} {rows : List UserRow} {a s : Nat} :
      ValidatedReach db → (∀ row ∈ rows, row.manager_id = none) →
      upload_users db rows = .ok (db', a, s) → ValidatedReach db'

/-- Employee stores reachable from the empty store by the three user
write operations (create, update, bulk import), as quantified in C3. -/
inductive UserWritesReach : List User → Prop where
  | nil : UserWritesReach []
  | create {db db' : List User} {u : User} :
      UserWritesReach db → create_user db u = .ok db' → UserWritesReach db'
  | update {db db' : List User} {eid : String} {upd : UserUpdate} :
      UserWritesReach db → update_user db eid upd = .ok db' → UserWritesReach db'
  | upload {db db' : List User} {rows : List UserRow} {a s : Nat} :
      UserWritesReach db → upload_users db rows = .ok (db', a, s) →
      UserWritesReach db'

/-- Employee stores reachable from the empty store by `create_user` alone. -/
inductive CreateOnlyReach : List User → Prop where
  | nil : CreateOnlyReach []
  | create {db db' : List User} {u : User} :
      CreateOnlyReach db → create_user db u = .ok db' → CreateOnlyReach db'

/-- The rank invariant claimed for a single employee record (C3): a
non-null manager reference either is a self-reference of a rank ≥ 5
employee, or resolves to a stored employee of strictly greater rank. -/
def managerRefOk (db : List User) (u : User) : Bool :=
  match u.manager_id with
  | none => true
  | some mid =>
    (mid == u.emp_id && decide (5 ≤ get_rank u.emp_designation)) ||
    (match findUser db mid with
     | some m => decide (get_rank u.emp_designation < get_rank m.emp_designation)
     | none => false)

/-- C3's invariant, exactly as claimed: every non-null manager reference
of every stored employee satisfies `managerRefOk`. -/
def ManagerRankClaimInvariant (db : List User) : Prop :=
  ∀ u ∈ db, managerRefOk db u = true

/-- The amended rank invariant: as `managerRefOk`, but empty-string
manager references (which Python truthiness treats as absent) are exempt. -/
def managerRefOkNonempty (db : List User) (u : User) : Bool :=
  (u.manager_id == some "") || managerRefOk db u

/-- The amended C3 invariant. -/
def ManagerRankInvariantNonempty (db : List User) : Prop :=
  ∀ u ∈ db, managerRefOkNonempty db u = true

/-- Combined persisted state: the `users` and `tasks` tables. -/
structure Store where
  users : List User
  tasks : List Task
  deriving DecidableEq

/-- Stores reachable from empty by the write operations quantified in C8:
task create, task update, bulk task import, user create, user update. -/
inductive StoreReach : Store → Prop where
  | nil : StoreReach ⟨[], []⟩
  | createUser {s : Store} {us' : List User} {u : User} :
      StoreReach s → create_user s.users u = .ok us' → StoreReach ⟨us', s.tasks⟩
  | updateUser {s : Store} {us' : List User} {eid : String} {upd : UserUpdate} :
      StoreReach s → update_user s.users eid upd = .ok us' → StoreReach ⟨us', s.tasks⟩
  | createTask {s : Store} {ts' : List Task} {t : TaskCreate} {gid : String} :
      StoreReach s → create_task s.users s.tasks t gid = .ok ts' →
      StoreReach ⟨s.users, ts'⟩
  | updateTask {s : Store} {ts' : List Task} {tid : String} {t : TaskCreate} :
      StoreReach s → update_task s.users s.tasks tid t = .ok ts' →
      StoreReach ⟨s.users, ts'⟩
  | uploadTasks {s : Store} {ts' : List Task} {rows : List (TaskRow × String)} :
      StoreReach s → upload_tasks s.users s.tasks rows = .ok ts' →
      StoreReach ⟨s.users, ts'⟩

/-- Stores reachable from empty by the same write operations minus
`update_user` (the amended C8 write set). -/
inductive StoreReachNoUserUpdate : Store → Prop where
  | nil : StoreReachNoUserUpdate ⟨[], []⟩
  | createUser {s : Store} {us' : List User} {u : User} :
      StoreReachNoUserUpdate s → create_user s.users u = .ok us' →
      StoreReachNoUserUpdate ⟨us', s.tasks⟩
  | createTask {s : Store} {ts' : List Task} {t : TaskCreate} {gid : String} :
      StoreReachNoUserUpdate s → create_task s.users s.tasks t gid = .ok ts' →
      StoreReachNoUserUpdate ⟨s.users, ts'⟩
  | updateTask {s : Store} {ts' : List Task} {tid : String} {t : TaskCreate} :
      StoreReachNoUserUpdate s → update_task s.users s.tasks tid t = .ok ts' →
      StoreReachNoUserUpdate ⟨s.users, ts'⟩
  | uploadTasks {s : Store} {ts' : List Task} {rows : List (TaskRow × String)} :
      StoreReachNoUserUpdate s → upload_tasks s.users s.tasks rows = .ok ts' →
      StoreReachNoUserUpdate ⟨s.users, ts'⟩

/-- C8's per-task condition: the task's `assigned_to` resolves to a stored
employee of rank strictly below 4. -/
def assigneeOk (users : List User) (t : Task) : Bool :=
  match t.task_assigned_to with
  | none => false
  | some aid =>
    match findUser users aid with
    | none => false
    | some e => decide (get_rank e.emp_designation < 4)

/-- C8's invariant: every persisted task's assignee resolves to a stored
employee of rank strictly below 4. -/
def TaskAssigneeInvariant (s : Store) : Prop :=
  ∀ t ∈ s.tasks, assigneeOk s.users t = true

/-- A successful `find?` on a prefix is unchanged by appending records. -/
theorem find?_append_of_some {α : Type} {p : α → Bool} {l₁ l₂ : List α} {x : α}
    (h : l₁.find? p = some x) : (l₁ ++ l₂).find? p = some x := by
  induction l₁ with
  | nil => simp [List.find?] at h
  | cons a rest ih =>
    rw [List.cons_append]
    cases hp : p a with
    | true =>
      rw [List.find?_cons_of_pos _ hp] at h ⊢
      exact h
    | false =>
      rw [List.find?_cons_of_neg _ (by simp [hp])] at h ⊢
      exact ih h

/-- Membership in `replaceFirstUser`: every record is either an original
one or the replacement. -/
theorem mem_replaceFirstUser {db : List User} {eid : String} {nu u : User}
    (h : u ∈ replaceFirstUser db eid nu) : u ∈ db ∨ u = nu := by
  induction db with
  | nil => simp [replaceFirstUser] at h
  | cons a rest ih =>
    rw [replaceFirstUser] at h
    by_cases ha : a.emp_id == eid
    · simp only [ha, if_pos] at h
      rcases List.mem_cons.mp h with h' | h'
      · exact Or.inr h'
      · exact Or.inl (List.mem_cons_of_mem _ h')
    · simp only [ha, if_neg] at h
      rcases List.mem_cons.mp h with h' | h'
      · exact Or.inl (h' ▸ List.mem_cons_self a rest)
      · rcases ih h' with h'' | h''
        · exact Or.inl (List.mem_cons_of_mem _ h'')
        · exact Or.inr h''

/-- Membership in `replaceFirstTask`: every record is either an original
one or the replacement. -/
theorem mem_replaceFirstTask {tasks : List Task} {tid : String} {nt t : Task}
    (h : t ∈ replaceFirstTask tasks tid nt) : t ∈ tasks ∨ t = nt := by
  induction tasks with
  | nil => simp [replaceFirstTask] at h
  | cons a rest ih =>
    rw [replaceFirstTask] at h
    by_cases ha : a.id == tid
    · simp only [ha, if_pos] at h
      rcases List.mem_cons.mp h with h' | h'
      · exact Or.inr h'
      · exact Or.inl (List.mem_cons_of_mem _ h')
    · simp only [ha, if_neg] at h
      rcases List.mem_cons.mp h with h' | h'
      · exact Or.inl (h' ▸ List.mem_cons_self a rest)
      · rcases ih h' with h'' | h''
        · exact Or.inl (List.mem_cons_of_mem _ h'')
        · exact Or.inr h''

/-- Membership in a completed report fold. -/
theorem subsFromReports_mem {recur : String → Option (Finset String)} :
    ∀ {reports : List User} {acc S : Finset String},
      subsFromReports recur reports acc = some S →
      ∀ i, i ∈ S ↔ i ∈ acc ∨ ∃ u, u ∈ reports ∧
        (i = u.emp_id ∨ ∃ s, recur u.emp_id = some s ∧ i ∈ s) := by
  intro reports
  induction reports with
  | nil =>
    intro acc S h i
    simp only [subsFromReports, Option.some.injEq] at h
    subst h
    simp
  | cons u rest ih =>
    intro acc S h i
    rw [subsFromReports] at h
    cases hr : recur u.emp_id with
    | none => rw [hr] at h; cases h
    | some s =>
      rw [hr] at h
      rw [ih h i]
      simp only [Finset.mem_union, Finset.mem_insert, List.mem_cons, hr]
      constructor
      · rintro (((he | ha) | hs) | ⟨v, hv, hcase⟩)
        · exact Or.inr ⟨u, Or.inl rfl, Or.inl he⟩
        · exact Or.inl ha
        · exact Or.inr ⟨u, Or.inl rfl, Or.inr ⟨s, hr, hs⟩⟩
        · exact Or.inr ⟨v, Or.inr hv, hcase⟩
      · rintro (ha | ⟨v, (rfl | hv), hcase⟩)
        · exact Or.inl (Or.inl (Or.inr ha))
        · rcases hcase with he | ⟨s', hs', his⟩
          · exact Or.inl (Or.inl (Or.inl he))
          · rw [hr] at hs'
            cases hs'
            exact Or.inl (Or.inr his)
        · exact Or.inr ⟨v, hv, hcase⟩

/-- A completed report fold completed every recursive call. -/
theorem subsFromReports_some_recur {recur : String → Option (Finset String)} :
    ∀ {reports : List User} {acc S : Finset String},
      subsFromReports recur reports acc = some S →
      ∀ u ∈ reports, ∃ s, recur u.emp_id = some s := by
  intro reports
  induction reports with
  | nil => intro acc S _ u hu; cases hu
  | cons v rest ih =>
    intro acc S h u hu
    rw [subsFromReports] at h
    cases hr : recur v.emp_id with
    | none => rw [hr] at h; cases h
    | some s =>
      rw [hr] at h
      rcases List.mem_cons.mp hu with rfl | hu'
      · exact ⟨s, hr⟩
      · exact ih h u hu'

/-- The report fold completes when each recursive call does. -/
theorem subsFromReports_isSome {recur : String → Option (Finset String)} :
    ∀ {reports : List User}, (∀ u ∈ reports, (recur u.emp_id).isSome) →
      ∀ acc, (subsFromReports recur reports acc).isSome := by
  intro reports
  induction reports with
  | nil => intro _ acc; simp [subsFromReports]
  | cons u rest ih =>
    intro h acc
    rw [subsFromReports]
    cases hr : recur u.emp_id with
    | none =>
      have := h u (List.mem_cons_self u rest)
      rw [hr] at this
      cases this
    | some s => exact ih (fun v hv => h v (List.mem_cons_of_mem _ hv)) _

/-- Gluing chains: if `w`'s chain reaches identity `i` and the stored
employee `v` carries identity `i` with a chain reaching `x`, then `w`'s
chain reaches `x`. -/
theorem ChainReaches.glue {db : List User} {w : User} {i : String}
    (h : ChainReaches db w i) :
    ∀ {v : User}, v ∈ db → v.emp_id = i → ∀ {x : String},
      ChainReaches db v x → ChainReaches db w x := by
  induction h with
  | direct hu hm =>
    intro v hv hvi x hvx
    exact ChainReaches.step hu hv (by rw [hvi]; exact hm) hvx
  | step hu hv' hm _ ih =>
    intro v hv hvi x hvx
    exact ChainReaches.step hu hv' hm (ih hv hvi hvx)

/-- Decomposing a chain at its top: whoever reaches `x` is a direct report
of `x` or chains into one. -/
theorem ChainReaches.decomp {db : List User} {w : User} {x : String}
    (h : ChainReaches db w x) :
    ∃ u, u ∈ db ∧ u.manager_id = some x ∧
      (w = u ∨ ChainReaches db w u.emp_id) := by
  induction h with
  | direct hu hm => exact ⟨_, hu, hm, Or.inl rfl⟩
  | step hu hv hm _ ih =>
    obtain ⟨u', hu', hm', hcase⟩ := ih
    refine ⟨u', hu', hm', Or.inr ?_⟩
    cases hcase with
    | inl he => exact ChainReaches.direct hu (he ▸ hm)
    | inr hc => exact ChainReaches.step hu hv hm hc

/-- `ChainReaches` only depends on store membership, so it is invariant
under permutation of the store. -/
theorem ChainReaches.of_perm {db db' : List User} (hp : db.Perm db')
    {u : User} {x : String} (h : ChainReaches db u x) : ChainReaches db' u x := by
  induction h with
  | direct hu hm => exact ChainReaches.direct (hp.mem_iff.mp hu) hm
  | step hu hv hm _ ih =>
    exact ChainReaches.step (hp.mem_iff.mp hu) (hp.mem_iff.mp hv) hm ih

/-- The specified subordinate set is finite (all its members are stored
identities). -/
theorem SubIdsSet_finite (db : List User) (x : String) :
    (SubIdsSet db x).Finite := by
  apply Set.Finite.subset (List.finite_toSet (db.map (·.emp_id)))
  rintro i ⟨u, hu, rfl, _⟩
  simp only [List.coe_toFinset, List.mem_map, Set.mem_setOf_eq]
  exact ⟨u, hu, rfl⟩

/-- Descending into a direct report shrinks the specified subordinate set. -/
theorem SubIdsSet_subset {db : List User} {x : String} {u : User}
    (hu : u ∈ db) (hm : u.manager_id = some x) :
    SubIdsSet db u.emp_id ⊆ SubIdsSet db x := by
  rintro i ⟨w, hw, rfl, hc⟩
  exact ⟨w, hw, rfl, hc.glue hu rfl (ChainReaches.direct hu hm)⟩

/-- In a cycle-free store the shrinkage is strict: the direct report's own
identity belongs to the manager's subordinate set but not to its own. -/
theorem SubIdsSet_ssubset {db : List User} (hcf : CycleFree db) {x : String}
    {u : User} (hu : u ∈ db) (hm : u.manager_id = some x) :
    SubIdsSet db u.emp_id ⊂ SubIdsSet db x := by
  rw [Set.ssubset_def]
  refine ⟨SubIdsSet_subset hu hm, fun hsub => ?_⟩
  have hmem : u.emp_id ∈ SubIdsSet db x := ⟨u, hu, rfl, ChainReaches.direct hu hm⟩
  obtain ⟨v, hv, hvi, hc⟩ := hsub hmem
  exact hcf v hv (by rw [hvi]; exact hc)

/-- Fuel exceeding the size of the specified subordinate set is enough for
the resolver to complete on a cycle-free store. -/
theorem subs_isSome_of_card {db : List User} (hcf : CycleFree db) :
    ∀ (n : Nat) (x : String), (SubIdsSet db x).ncard < n →
      (get_all_subordinates db n x).isSome := by
  intro n
  induction n with
  | zero => intro x h; omega
  | succ m ih =>
    intro x hx
    rw [get_all_subordinates]
    apply subsFromReports_isSome
    intro u hu
    rw [List.mem_filter] at hu
    obtain ⟨hudb, hum⟩ := hu
    have hm : u.manager_id = some x := by simpa using hum
    apply ih
    have := Set.ncard_lt_ncard (SubIdsSet_ssubset hcf hudb hm) (SubIdsSet_finite db x)
    omega

/-- Whenever the resolver completes, it computes exactly the specified
subordinate identity set. -/
theorem subs_spec {db : List User} :
    ∀ {fuel : Nat} {x : String} {S : Finset String},
      get_all_subordinates db fuel x = some S →
      ∀ i, i ∈ S ↔ i ∈ SubIdsSet db x := by
  intro fuel
  induction fuel with
  | zero => intro x S h; rw [get_all_subordinates] at h; cases h
  | succ m ih =>
    intro x S h i
    rw [get_all_subordinates] at h
    have hmem := subsFromReports_mem h i
    have hrec := subsFromReports_some_recur h
    simp only [Finset.not_mem_empty, false_or] at hmem
    rw [hmem]
    constructor
    · rintro ⟨u, hu, hcase⟩
      rw [List.mem_filter] at hu
      obtain ⟨hudb, hum⟩ := hu
      have hm : u.manager_id = some x := by simpa using hum
      cases hcase with
      | inl he => exact ⟨u, hudb, he.symm, ChainReaches.direct hudb hm⟩
      | inr hex =>
        obtain ⟨s, hs, his⟩ := hex
        obtain ⟨w, hw, hwi, hc⟩ := (ih hs i).mp his
        exact ⟨w, hw, hwi, hc.glue hudb rfl (ChainReaches.direct hudb hm)⟩
    · rintro ⟨w, hw, rfl, hc⟩
      obtain ⟨u, hu, hum, hcase⟩ := hc.decomp
      have hufilter : u ∈ db.filter (fun v => v.manager_id == some x) := by
        rw [List.mem_filter]
        exact ⟨hu, by simp [hum]⟩
      cases hcase with
      | inl he => exact ⟨u, hufilter, Or.inl (by rw [he])⟩
      | inr hcc =>
        obtain ⟨s, hs⟩ := hrec u hufilter
        exact ⟨u, hufilter, Or.inr ⟨s, hs, (ih hs w.emp_id).mpr ⟨w, hw, rfl, hcc⟩⟩⟩

/-- On a cycle-free store, fuel `db.length + 1` always completes, with the
specified subordinate set as the result. -/
theorem cycleFree_subs_total {db : List User} (hcf : CycleFree db) (x : String) :
    ∃ S, get_all_subordinates db (db.length + 1) x = some S ∧
      ∀ i, i ∈ S ↔ i ∈ SubIdsSet db x := by
  have hcard : (SubIdsSet db x).ncard < db.length + 1 := by
    have hsub : SubIdsSet db x ⊆ ↑(db.map (·.emp_id)).toFinset := by
      rintro i ⟨u, hu, rfl, _⟩
      simp only [Finset.coe_sort_coe, List.coe_toFinset, List.mem_map, Set.mem_setOf_eq]
      exact ⟨u, hu, rfl⟩
    have h1 : (SubIdsSet db x).ncard ≤ ((db.map (·.emp_id)).toFinset : Set String).ncard :=
      Set.ncard_le_ncard hsub (Finset.finite_toSet _)
    rw [Set.ncard_coe_Finset] at h1
    have h2 : (db.map (·.emp_id)).toFinset.card ≤ (db.map (·.emp_id)).length :=
      List.toFinset_card_le _
    rw [List.length_map] at h2
    omega
  obtain ⟨S, hS⟩ := Option.isSome_iff_exists.mp (subs_isSome_of_card hcf _ x hcard)
  exact ⟨S, hS, subs_spec hS⟩

/-- Strictly rank-increasing manager edges rule out cycles. -/
theorem rankIncreasing_cycleFree {db : List User} (h : RankIncreasing db) :
    CycleFree db := by
  have key : ∀ {u : User} {x : String}, ChainReaches db u x →
      ∀ v ∈ db, v.emp_id = x →
        get_rank u.emp_designation < get_rank v.emp_designation := by
    intro u x hc
    induction hc with
    | direct hu hm =>
      intro v hv hvx
      exact h _ hu _ hv (by rw [hvx]; exact hm)
    | step hu hv hm _ ih =>
      intro w hw hwx
      have h1 := h _ hu _ hv hm
      have h2 := ih w hw hwx
      omega
  intro u hu hc
  have := key hc u hu rfl
  omega

/-- A key outside the rank table looks up to nothing. -/
theorem lookup_ranks_eq_none {k : String}
    (h : k ∉ (["SE1", "SE2", "SSE", "TL", "L1", "L2", "EM", "CTO", "ADMIN",
      "SUPERADMIN", "OWNER"] : List String)) :
    HIERARCHY_RANKS.lookup k = none := by
  simp only [List.mem_cons, List.not_mem_nil, or_false, not_or] at h
  obtain ⟨h1, h2, h3, h4, h5, h6, h7, h8, h9, h10, h11⟩ := h
  simp [HIERARCHY_RANKS, List.lookup, beq_eq_false_iff_ne.mpr h1,
    beq_eq_false_iff_ne.mpr h2, beq_eq_false_iff_ne.mpr h3,
    beq_eq_false_iff_ne.mpr h4, beq_eq_false_iff_ne.mpr h5,
    beq_eq_false_iff_ne.mpr h6, beq_eq_false_iff_ne.mpr h7,
    beq_eq_false_iff_ne.mpr h8, beq_eq_false_iff_ne.mpr h9,
    beq_eq_false_iff_ne.mpr h10, beq_eq_false_iff_ne.mpr h11]

/-- Success of the Eligibility Checker means rank strictly below 4. -/
theorem validate_assignee_ok {u : User} {v : Unit}
    (h : validate_assignee_eligibility u = .ok v) :
    get_rank u.emp_designation < 4 := by
  unfold validate_assignee_eligibility at h
  by_cases h4 : 4 ≤ get_rank u.emp_designation
  · rw [if_pos h4] at h; cases h
  · omega

/-- What a successful run of the Hierarchy Validator guarantees. -/
theorem validate_manager_ok {db : List User} {mid : String}
    {desig empId : Option String} {v : Unit}
    (h : validate_manager_hierarchy db mid desig empId = .ok v) :
    ∃ m, findUser db mid = some m ∧
      ((optTruthy empId && (empId == some mid)) = true ∧ 5 ≤ get_rank desig ∨
       (optTruthy empId && (empId == some mid)) = false ∧
         get_rank desig < get_rank m.emp_designation) := by
  unfold validate_manager_hierarchy at h
  cases hm : findUser db mid with
  | none => rw [hm] at h; cases h
  | some m =>
    rw [hm] at h
    simp only at h
    refine ⟨m, rfl, ?_⟩
    by_cases hc : (optTruthy empId && (empId == some mid)) = true
    · rw [if_pos hc] at h
      split at h
      · exact Or.inl ⟨hc, by omega⟩
      · cases h
    · rw [if_neg hc] at h
      split at h
      · cases h
      · exact Or.inr ⟨by simpa using hc, by omega⟩

/-- Shape of a successful `create_user`: the record is appended, the
emp_id was fresh, and a truthy manager reference passed the validator. -/
theorem create_user_ok {db db' : List User} {u : User}
    (h : create_user db u = .ok db') :
    db' = db ++ [u] ∧ findUser db u.emp_id = none ∧
      (optTruthy u.manager_id = true →
        ∃ v, validate_manager_hierarchy db (u.manager_id.getD "")
          u.emp_designation (some u.emp_id) = .ok v) := by
  unfold create_user at h
  split at h
  · cases h
  next hdup =>
    split at h
    · cases h
    · split at h
      · cases h
      next val hval =>
        injection h with h'
        refine ⟨h'.symm, ?_, ?_⟩
        · exact Option.not_isSome_iff_eq_none.mp hdup
        · intro htruthy
          rw [if_pos htruthy] at hval
          exact ⟨val, hval⟩

/-- Shape of a successful `update_user`: the stored record found by
`empId` is replaced by the field-merged record, and if the manager
reference is truthy and differs from the stored one it passed the
validator against the effective designation. -/
theorem update_user_ok {db db' : List User} {empId : String} {upd : UserUpdate}
    (h : update_user db empId upd = .ok db') :
    ∃ dbUser, findUser db empId = some dbUser ∧
      db' = replaceFirstUser db empId (applyUserUpdate dbUser upd) ∧
      ((optTruthy upd.manager_id && !(upd.manager_id == dbUser.manager_id)) = true →
        ∃ v, validate_manager_hierarchy db (upd.manager_id.getD "")
          (pyOr upd.emp_designation dbUser.emp_designation) (some dbUser.emp_id) = .ok v) := by
  unfold update_user at h
  cases hf : findUser db empId with
  | none => rw [hf] at h; cases h
  | some dbUser =>
    rw [hf] at h
    simp only at h
    split at h
    · cases h
    · split at h
      · cases h
      · split at h
        · cases h
        next val hval =>
          injection h with h'
          refine ⟨dbUser, rfl, h'.symm, fun hc => ?_⟩
          rw [if_pos hc] at hval
          exact ⟨val, hval⟩

/-- Shape of a successful `create_task`. -/
theorem create_task_ok {users : List User} {tasks tasks' : List Task}
    {t : TaskCreate} {genId : String}
    (h : create_task users tasks t genId = .ok tasks') :
    tasks' = tasks ++ [taskFromCreate t (resolvedTaskId t.id genId)] ∧
      optTruthy t.task_assigned_to = true ∧
      ∃ e, findUser users (t.task_assigned_to.getD "") = some e ∧
        get_rank e.emp_designation < 4 := by
  unfold create_task at h
  split at h
  · cases h
  · split at h
    · cases h
    · split at h
      · cases h
      next hassigned =>
        cases hf : findUser users (t.task_assigned_to.getD "") with
        | none => rw [hf] at h; cases h
        | some e =>
          rw [hf] at h
          simp only at h
          split at h
          · cases h
          next val hval =>
            injection h with h'
            exact ⟨h'.symm, by simpa using hassigned, e, rfl, validate_assignee_ok hval⟩

/-- Shape of a successful `update_task`. -/
theorem update_task_ok {users : List User} {tasks tasks' : List Task}
    {taskId : String} {t : TaskCreate}
    (h : update_task users tasks taskId t = .ok tasks') :
    ∃ dbTask, findTask tasks taskId = some dbTask ∧
      tasks' = replaceFirstTask tasks taskId (applyTaskUpdate dbTask t) ∧
      optTruthy t.task_assigned_to = true ∧
      ∃ e, findUser users (t.task_assigned_to.getD "") = some e ∧
        get_rank e.emp_designation < 4 := by
  unfold update_task at h
  cases hf : findTask tasks taskId with
  | none => rw [hf] at h; cases h
  | some dbTask =>
    rw [hf] at h
    simp only at h
    split at h
    · cases h
    · split at h
      next hassigned => cases h
      next hassigned =>
        cases hu : findUser users (t.task_assigned_to.getD "") with
        | none => rw [hu] at h; cases h
        | some e =>
          rw [hu] at h
          simp only at h
          split at h
          · cases h
          next val hval =>
            injection h with h'
            exact ⟨dbTask, rfl, h'.symm, by simpa using hassigned, e, rfl,
              validate_assignee_ok hval⟩

/-- Every task produced by the pre-validation loop of `upload_tasks` has
an assignee that resolves to a stored employee of rank below 4. -/
theorem validateTaskRows_ok {users : List User} :
    ∀ {rows : List (TaskRow × String)} {L : List Task},
      validateTaskRows users rows = .ok L → ∀ t ∈ L, assigneeOk users t = true := by
  intro rows
  induction rows with
  | nil =>
    intro L h t ht
    unfold validateTaskRows at h
    injection h with h'
    rw [← h'] at ht
    cases ht
  | cons rg rest ih =>
    intro L h t ht
    obtain ⟨row, gid⟩ := rg
    unfold validateTaskRows at h
    split at h
    · cases h
    · split at h
      next hassigned => cases h
      next hassigned =>
        split at h
        · cases h
        · cases hu : findUser users (row.task_assigned_to.getD "") with
          | none => rw [hu] at h; cases h
          | some e =>
            rw [hu] at h
            simp only at h
            split at h
            · cases h
            next val hval =>
              cases hrest : validateTaskRows users rest with
              | error e' => rw [hrest] at h; cases h
              | ok restTasks =>
                rw [hrest] at h
                simp only at h
                injection h with h'
                rw [← h'] at ht
                rcases List.mem_cons.mp ht with rfl | ht'
                · have htruthy : optTruthy row.task_assigned_to = true := by
                    simpa using hassigned
                  obtain ⟨aid, haid⟩ : ∃ aid, row.task_assigned_to = some aid := by
                    cases hta : row.task_assigned_to with
                    | none => rw [hta] at htruthy; cases htruthy
                    | some a => exact ⟨a, rfl⟩
                  rw [haid] at hu
                  simp only [Option.getD_some] at hu
                  unfold assigneeOk taskFromRow
                  simp only [haid, hu]
                  simp [validate_assignee_ok hval]
                · exact ih hrest t ht'

/-- Shape of a successful `upload_tasks`: the validated batch is appended. -/
theorem upload_tasks_ok {users : List User} {tasks tasks' : List Task}
    {rows : List (TaskRow × String)}
    (h : upload_tasks users tasks rows = .ok tasks') :
    ∃ validated, validateTaskRows users rows = .ok validated ∧
      tasks' = tasks ++ validated := by
  unfold upload_tasks at h
  cases hv : validateTaskRows users rows with
  | error e => rw [hv] at h; cases h
  | ok validated =>
    rw [hv] at h
    simp only at h
    split at h
    · cases h
    · split at h
      · injection h with h'
        exact ⟨validated, rfl, h'.symm⟩
      · cases h

/-- Claim C10: `get_rank` is case-insensitive over the fixed table
SE1=1, SE2=1, SSE=1, TL=1, L1=2, L2=3, EM=4, CTO=5, ADMIN=5,
SUPERADMIN=6, OWNER=7, and returns 0 for any label outside this set and
for empty or absent input; being a pure Lean function that mirrors the
pure Python function, it has no side effects. -/
theorem C10_rank_table :
    get_rank none = 0 ∧ get_rank (some "") = 0 ∧
    (get_rank (some "SE1") = 1 ∧ get_rank (some "SE2") = 1 ∧
     get_rank (some "SSE") = 1 ∧ get_rank (some "TL") = 1 ∧
     get_rank (some "L1") = 2 ∧ get_rank (some "L2") = 3 ∧
     get_rank (some "EM") = 4 ∧ get_rank (some "CTO") = 5 ∧
     get_rank (some "ADMIN") = 5 ∧ get_rank (some "SUPERADMIN") = 6 ∧
     get_rank (some "OWNER") = 7) ∧
    (∀ d₁ d₂ : String, d₁ ≠ "" → d₂ ≠ "" → upperAscii d₁ = upperAscii d₂ →
      get_rank (some d₁) = get_rank (some d₂)) ∧
    (∀ d : String,
      upperAscii d ∉ (["SE1", "SE2", "SSE", "TL", "L1", "L2", "EM", "CTO",
        "ADMIN", "SUPERADMIN", "OWNER"] : List String) →
      get_rank (some d) = 0) := by
  refine ⟨rfl, rfl, by decide, ?_, ?_⟩
  · intro d₁ d₂ h1 h2 hup
    simp [get_rank, beq_eq_false_iff_ne.mpr h1, beq_eq_false_iff_ne.mpr h2, hup]
  · intro d hd
    by_cases he : d = ""
    · simp [get_rank, he]
    · simp [get_rank, beq_eq_false_iff_ne.mpr he, lookup_ranks_eq_none hd]

/-- Witness for C10 at concrete inputs: a mixed-case known label and an
unknown label. -/
theorem C10_rank_table_witness :
    get_rank (some "Owner") = get_rank (some "OWNER") ∧
    get_rank (some "manager") = 0 := by
  constructor
  · exact C10_rank_table.2.2.2.1 "Owner" "OWNER" (by decide) (by decide) (by decide)
  · exact C10_rank_table.2.2.2.2 "manager" (by decide)

/-- Claim C9: `validate_assignee_eligibility` fails with
RankTooHighForAssignment exactly when the employee's rank is at least 4;
it fails for designations EM, CTO, ADMIN, SUPERADMIN, OWNER and succeeds
for SE1, SE2, SSE, TL, L1, L2 and for any designation of rank 0. -/
theorem C9_assignable_iff :
    (∀ u : User, validate_assignee_eligibility u = .error .RankTooHighForAssignment ↔
      4 ≤ get_rank u.emp_designation) ∧
    (∀ u : User, validate_assignee_eligibility u = .ok () ↔
      get_rank u.emp_designation < 4) ∧
    (∀ u : User, ∀ d ∈ (["EM", "CTO", "ADMIN", "SUPERADMIN", "OWNER"] : List String),
      u.emp_designation = some d →
      validate_assignee_eligibility u = .error .RankTooHighForAssignment) ∧
    (∀ u : User, ∀ d ∈ (["SE1", "SE2", "SSE", "TL", "L1", "L2"] : List String),
      u.emp_designation = some d → validate_assignee_eligibility u = .ok ()) ∧
    (∀ u : User, get_rank u.emp_designation = 0 →
      validate_assignee_eligibility u = .ok ()) := by
  refine ⟨?_, ?_, ?_, ?_, ?_⟩
  · intro u
    by_cases h : 4 ≤ get_rank u.emp_designation <;>
      simp [validate_assignee_eligibility, h]
  · intro u
    by_cases h : 4 ≤ get_rank u.emp_designation
    · simp [validate_assignee_eligibility, h]
    · simp [validate_assignee_eligibility, h]
      omega
  · intro u d hd hu
    have h : 4 ≤ get_rank u.emp_designation := by rw [hu]; fin_cases hd <;> decide
    simp [validate_assignee_eligibility, h]
  · intro u d hd hu
    have h : ¬ 4 ≤ get_rank u.emp_designation := by rw [hu]; fin_cases hd <;> decide
    simp [validate_assignee_eligibility, h]
  · intro u h0
    have h : ¬ 4 ≤ get_rank u.emp_designation := by omega
    simp [validate_assignee_eligibility, h]

/-- Witness for C9 at concrete employees: an EM is rejected, an SE1 is
accepted. -/
theorem C9_assignable_iff_witness :
    validate_assignee_eligibility
      ⟨"Eve", "E9", "e9@corp.io", none, some "EM", none, none, none⟩ =
      .error .RankTooHighForAssignment ∧
    validate_assignee_eligibility
      ⟨"Sam", "S9", "s9@corp.io", none, some "SE1", none, none, none⟩ = .ok () := by
  constructor
  · exact C9_assignable_iff.2.2.1 _ "EM" (by decide) rfl
  · exact C9_assignable_iff.2.2.2.1 _ "SE1" (by decide) rfl

/-- Claim C6: the View-Scope Calculator returns the empty set for an
unknown viewer; `{viewer}` when the viewer's rank is below 2; and
`{viewer} ∪ subordinates_of(viewer)` when the rank is at least 2 (in the
latter case it diverges exactly when subordinate resolution does). -/
theorem C6_view_scope (db : List User) (fuel : Nat) (eid : String) :
    (findUser db eid = none → get_user_view_scope db fuel eid = some ∅) ∧
    (∀ u, findUser db eid = some u → get_rank u.emp_designation < 2 →
      get_user_view_scope db fuel eid = some {eid}) ∧
    (∀ u, findUser db eid = some u → 2 ≤ get_rank u.emp_designation →
      ∀ S, get_all_subordinates db fuel eid = some S →
        get_user_view_scope db fuel eid = some ({eid} ∪ S)) ∧
    (∀ u, findUser db eid = some u → 2 ≤ get_rank u.emp_designation →
      get_all_subordinates db fuel eid = none →
      get_user_view_scope db fuel eid = none) := by
  refine ⟨?_, ?_, ?_, ?_⟩
  · intro h
    simp [get_user_view_scope, h]
  · intro u hu hrank
    have h2 : ¬ 2 ≤ get_rank u.emp_designation := by omega
    simp [get_user_view_scope, hu, h2]
  · intro u hu hrank S hS
    simp [get_user_view_scope, hu, hrank, hS]
  · intro u hu hrank hnone
    simp [get_user_view_scope, hu, hrank, hnone]

/-- Witness for C6 on a two-employee store: a rank-5 viewer sees self plus
subordinates, a rank-1 viewer sees only self. -/
theorem C6_view_scope_witness :
    get_user_view_scope
      [⟨"Alice", "A", "a@corp.io", none, some "CTO", none, none, none⟩,
       ⟨"Bob", "B", "b@corp.io", none, some "SE1", none, none, some "A"⟩] 2 "A" =
      some ({"A"} ∪ {"B"}) ∧
    get_user_view_scope
      [⟨"Alice", "A", "a@corp.io", none, some "CTO", none, none, none⟩,
       ⟨"Bob", "B", "b@corp.io", none, some "SE1", none, none, some "A"⟩] 2 "B" =
      some {"B"} := by
  constructor
  · exact (C6_view_scope _ 2 "A").2.2.1
      ⟨"Alice", "A", "a@corp.io", none, some "CTO", none, none, none⟩
      (by decide) (by decide) {"B"} (by decide)
  · exact (C6_view_scope _ 2 "B").2.1
      ⟨"Bob", "B", "b@corp.io", none, some "SE1", none, none, some "A"⟩
      (by decide) (by decide)

/-- Claim C7: on every cycle-free store, subordinate resolution (fuel
`db.length + 1` suffices) completes and returns exactly the identities of
the employees whose manager chain eventually reaches `x`; the result
never contains `x` itself, carries no duplicates, and is invariant under
permutation of the stored direct-report order. -/
theorem C7_subordinates_spec (db : List User) (x : String) (hcf : CycleFree db) :
    ∃ S : Finset String,
      get_all_subordinates db (db.length + 1) x = some S ∧
      (∀ i, i ∈ S ↔ ∃ u, u ∈ db ∧ u.emp_id = i ∧ ChainReaches db u x) ∧
      x ∉ S ∧
      S.val.Nodup ∧
      (∀ db' : List User, db.Perm db' →
        get_all_subordinates db' (db'.length + 1) x = some S) := by
  obtain ⟨S, hS, hmem⟩ := cycleFree_subs_total hcf x
  refine ⟨S, hS, hmem, ?_, S.nodup, ?_⟩
  · intro hx
    obtain ⟨u, hu, hui, hc⟩ := (hmem x).mp hx
    exact hcf u hu (by rw [hui]; exact hc)
  · intro db' hperm
    have hcf' : CycleFree db' := by
      intro u hu hc
      exact hcf u (hperm.mem_iff.mpr hu) (hc.of_perm hperm.symm)
    obtain ⟨S', hS', hmem'⟩ := cycleFree_subs_total hcf' x
    have hlen : db'.length = db.length := hperm.length_eq.symm
    have hSS : S' = S := by
      apply Finset.ext
      intro i
      rw [hmem' i, hmem i]
      constructor
      · rintro ⟨u, hu, hui, hc⟩
        exact ⟨u, hperm.mem_iff.mpr hu, hui, hc.of_perm hperm.symm⟩
      · rintro ⟨u, hu, hui, hc⟩
        exact ⟨u, hperm.mem_iff.mp hu, hui, hc.of_perm hperm⟩
    rw [hlen] at hS'
    rw [hlen, hS', hSS]

/-- Witness for C7 on a concrete two-employee cycle-free store (the
cycle-freedom hypothesis is discharged through the strict-rank argument). -/
theorem C7_subordinates_spec_witness :
    ∃ S : Finset String,
      get_all_subordinates
        [⟨"Bob", "B", "b@corp.io", none, some "SE1", none, none, some "A"⟩,
         ⟨"Alice", "A", "a@corp.io", none, some "CTO", none, none, none⟩]
        ([⟨"Bob", "B", "b@corp.io", none, some "SE1", none, none, some "A"⟩,
          ⟨"Alice", "A", "a@corp.io", none, some "CTO", none, none, none⟩] : List User).length.succ
        "A" = some S ∧ "A" ∉ S := by
  obtain ⟨S, hS, _, hx, _, _⟩ := C7_subordinates_spec
    [⟨"Bob", "B", "b@corp.io", none, some "SE1", none, none, some "A"⟩,
     ⟨"Alice", "A", "a@corp.io", none, some "CTO", none, none, none⟩]
    "A" (rankIncreasing_cycleFree (by unfold RankIncreasing; decide))
  exact ⟨S, hS, hx⟩

/-- On the store holding exactly one self-managed employee `"C"`, the
subordinate resolution of `"C"` never completes, at any fuel: the
employee is their own direct report. -/
theorem subs_selfloop_none :
    ∀ fuel, get_all_subordinates
      [⟨"Chief", "C", "c@corp.io", none, some "CTO", none, none, some "C"⟩]
      fuel "C" = none := by
  intro fuel
  induction fuel with
  | zero => rw [get_all_subordinates]
  | succ m ih =>
    rw [get_all_subordinates]
    have hfilter :
        ([⟨"Chief", "C", "c@corp.io", none, some "CTO", none, none, some "C"⟩] :
          List User).filter (fun u => u.manager_id == some "C") =
        [⟨"Chief", "C", "c@corp.io", none, some "CTO", none, none, some "C"⟩] := by
      decide
    rw [hfilter, subsFromReports]
    simp only [ih]

/-- Counterexample to claim C1: starting from the empty store, creating a
CTO (no manager set) and then updating them to be their own manager — a
change the Hierarchy Validator accepts, since self-management is allowed
at rank ≥ 5 — produces a validated-reachable store on which subordinate
resolution diverges for the CTO's identity. The strict-rank-increase rule
does not keep the manager graph effectively acyclic, because the
self-management exception creates a one-node cycle. -/
theorem C1_counterexample :
    ValidatedReach
      [⟨"Chief", "C", "c@corp.io", none, some "CTO", none, none, some "C"⟩] ∧
    ¬ SubResolutionTerminates
      [⟨"Chief", "C", "c@corp.io", none, some "CTO", none, none, some "C"⟩] "C" := by
  constructor
  · have h1 : create_user []
        ⟨"Chief", "C", "c@corp.io", none, some "CTO", none, none, none⟩ =
        .ok [⟨"Chief", "C", "c@corp.io", none, some "CTO", none, none, none⟩] := by
      rfl
    have h2 : update_user
        [⟨"Chief", "C", "c@corp.io", none, some "CTO", none, none, none⟩] "C"
        ⟨none, none, none, none, none, none, none, some "C"⟩ =
        .ok [⟨"Chief", "C", "c@corp.io", none, some "CTO", none, none, some "C"⟩] := by
      rfl
    exact ValidatedReach.update
      (ValidatedReach.create ValidatedReach.nil (by decide) h1) (by decide) h2
  · rintro ⟨fuel, S, hS⟩
    rw [subs_selfloop_none fuel] at hS
    cases hS

/-- Amended claim C1 (theorem): subordinate resolution terminates for
every identity on every store in which the stored manager edges are
strictly rank-increasing — the strict-rank-increase rule does keep such a
graph acyclic, and fuel `db.length + 1` suffices. The original claim's
premise (validator acceptance of every set/changed manager reference)
does not guarantee this invariant: self-management at rank ≥ 5 is
accepted yet creates a self-loop on which resolution diverges. -/
theorem C1_rank_rule_terminates {db : List User} (h : RankIncreasing db)
    (x : String) :
    SubResolutionTerminates db x ∧
      ∃ S, get_all_subordinates db (db.length + 1) x = some S := by
  obtain ⟨S, hS, _⟩ := cycleFree_subs_total (rankIncreasing_cycleFree h) x
  exact ⟨⟨db.length + 1, S, hS⟩, S, hS⟩

/-- Witness for the amended C1 on a concrete strictly rank-increasing
store. -/
theorem C1_rank_rule_terminates_witness :
    SubResolutionTerminates
      [⟨"Bob", "B", "b@corp.io", none, some "SE1", none, none, some "A"⟩,
       ⟨"Alice", "A", "a@corp.io", none, some "CTO", none, none, none⟩] "A" :=
  (C1_rank_rule_terminates (by unfold RankIncreasing; decide) "A").1

/-- Counterexample to claim C5: for the store holding one employee whose
`emp_id` is the empty string and whose designation is CTO (rank 5), take
A = B = that employee. The claim requires `validate_manager` to succeed
(`A.id == B` and rank ≥ 5), but the code rejects with
InsufficientManagerRank: Python truthiness (`if employee_id and ...`)
treats the empty employee id as absent and skips the self-management
branch, falling through to the strict comparison of equal ranks. -/
theorem C5_counterexample :
    (⟨"Root", "", "root@corp.io", none, some "CTO", none, none, none⟩ : User) ∈
      [(⟨"Root", "", "root@corp.io", none, some "CTO", none, none, none⟩ : User)] ∧
    findUser [⟨"Root", "", "root@corp.io", none, some "CTO", none, none, none⟩] "" =
      some ⟨"Root", "", "root@corp.io", none, some "CTO", none, none, none⟩ ∧
    5 ≤ get_rank (some "CTO") ∧
    validate_manager_hierarchy
      [⟨"Root", "", "root@corp.io", none, some "CTO", none, none, none⟩]
      "" (some "CTO") (some "") = .error .InsufficientManagerRank := by
  exact ⟨List.mem_singleton_self _, rfl, by decide, rfl⟩

/-- Amended claim C5: for all employees A and B in the store such that
A's `emp_id` is non-empty (an empty employee id is treated as absent by
the truthiness guard) and the store's lookup of B's id returns B,
`validate_manager(B.emp_id, A.designation, A.id)` succeeds iff
(`A.id = B.emp_id` and `rank_of(A.designation) ≥ 5`) or (`A.id ≠ B.emp_id`
and `rank_of(B.designation) > rank_of(A.designation)`); when it does not
succeed it fails with SelfManagementNotAllowed in the first shape and
InsufficientManagerRank in the second, and never with ManagerNotFound. -/
theorem C5_validate_manager (db : List User) (A B : User)
    (_hA : A ∈ db) (hB : findUser db B.emp_id = some B) (hne : A.emp_id ≠ "") :
    (validate_manager_hierarchy db B.emp_id A.emp_designation (some A.emp_id) =
        .ok () ↔
      ((A.emp_id = B.emp_id ∧ 5 ≤ get_rank A.emp_designation) ∨
       (A.emp_id ≠ B.emp_id ∧
         get_rank A.emp_designation < get_rank B.emp_designation))) ∧
    (A.emp_id = B.emp_id → get_rank A.emp_designation < 5 →
      validate_manager_hierarchy db B.emp_id A.emp_designation (some A.emp_id) =
        .error .SelfManagementNotAllowed) ∧
    (A.emp_id ≠ B.emp_id →
      get_rank B.emp_designation ≤ get_rank A.emp_designation →
      validate_manager_hierarchy db B.emp_id A.emp_designation (some A.emp_id) =
        .error .InsufficientManagerRank) ∧
    validate_manager_hierarchy db B.emp_id A.emp_designation (some A.emp_id) ≠
      .error .ManagerNotFound := by
  unfold validate_manager_hierarchy
  rw [hB]
  simp only
  by_cases hseq : A.emp_id = B.emp_id
  · have hBne : B.emp_id ≠ "" := hseq ▸ hne
    have hcond : (optTruthy (some A.emp_id) && (some A.emp_id == some B.emp_id)) = true := by
      simp [optTruthy, hseq, hBne]
    rw [if_pos hcond]
    by_cases h5 : 5 ≤ get_rank A.emp_designation
    · rw [if_pos h5]
      refine ⟨?_, ?_, ?_, by simp⟩
      · simp [hseq, h5]
      · intro _ hlt
        omega
      · intro hne'
        exact absurd hseq hne'
    · rw [if_neg h5]
      refine ⟨?_, ?_, ?_, by simp⟩
      · constructor
        · intro h
          cases h
        · rintro (⟨_, h⟩ | ⟨hne', _⟩)
          · exact absurd h h5
          · exact absurd hseq hne'
      · intro _ _
        rfl
      · intro hne'
        exact absurd hseq hne'
  · have hcond : ¬ (optTruthy (some A.emp_id) && (some A.emp_id == some B.emp_id)) = true := by
      simp [optTruthy, hseq]
    rw [if_neg hcond]
    by_cases hr : get_rank B.emp_designation ≤ get_rank A.emp_designation
    · rw [if_pos hr]
      refine ⟨?_, ?_, ?_, by simp⟩
      · constructor
        · intro h
          cases h
        · rintro (⟨heq, _⟩ | ⟨_, hlt⟩)
          · exact absurd heq hseq
          · omega
      · intro heq _
        exact absurd heq hseq
      · intro _ _
        rfl
    · rw [if_neg hr]
      refine ⟨?_, ?_, ?_, by simp⟩
      · simp [hseq]
        omega
      · intro heq _
        exact absurd heq hseq
      · intro _ hle
        exact absurd hle hr

/-- Witness for the amended C5: a stored SE1 reports to a stored CTO —
the validator accepts, matching the strict-rank condition. -/
theorem C5_validate_manager_witness :
    validate_manager_hierarchy
      [⟨"Alice", "A", "a@corp.io", none, some "CTO", none, none, none⟩,
       ⟨"Bob", "B", "b@corp.io", none, some "SE1", none, none, none⟩]
      "A" (some "SE1") (some "B") = .ok () := by
  exact (C5_validate_manager
    [⟨"Alice", "A", "a@corp.io", none, some "CTO", none, none, none⟩,
     ⟨"Bob", "B", "b@corp.io", none, some "SE1", none, none, none⟩]
    ⟨"Bob", "B", "b@corp.io", none, some "SE1", none, none, none⟩
    ⟨"Alice", "A", "a@corp.io", none, some "CTO", none, none, none⟩
    (by decide) (by decide) (by decide)).1.mpr (Or.inr (by decide))

/-- `managerRefOk` survives appending fresh records: the disjuncts only
read the record itself and a successful first-match lookup, both stable. -/
theorem managerRefOk_append {db l : List User} {u : User}
    (h : managerRefOk db u = true) : managerRefOk (db ++ l) u = true := by
  unfold managerRefOk at h ⊢
  cases hm : u.manager_id with
  | none => simp
  | some mid =>
    simp only [hm] at h ⊢
    rw [Bool.or_eq_true] at h ⊢
    rcases h with hself | hfind
    · exact Or.inl hself
    · right
      cases hf : findUser db mid with
      | none => rw [hf] at hfind; cases hfind
      | some m =>
        rw [hf] at hfind
        have hf' : findUser (db ++ l) mid = some m := find?_append_of_some hf
        rw [hf']
        exact hfind

/-- `managerRefOkNonempty` survives appending fresh records. -/
theorem managerRefOkNonempty_append {db l : List User} {u : User}
    (h : managerRefOkNonempty db u = true) :
    managerRefOkNonempty (db ++ l) u = true := by
  unfold managerRefOkNonempty at h ⊢
  rw [Bool.or_eq_true] at h ⊢
  rcases h with h1 | h2
  · exact Or.inl h1
  · exact Or.inr (managerRefOk_append h2)

/-- Counterexample to claim C3: bulk user import performs no hierarchy
validation at all, so importing an SE1 and then an OWNER who reports to
the SE1 yields a store, reachable through the core's user write
operations, with a non-null manager reference whose manager has strictly
lower rank (and who is not self-managing). -/
theorem C3_counterexample :
    UserWritesReach
      [⟨"Alice", "A", "a@corp.io", none, some "SE1", none, none, none⟩,
       ⟨"Bob", "B", "b@corp.io", none, some "OWNER", none, none, some "A"⟩] ∧
    ¬ ManagerRankClaimInvariant
      [⟨"Alice", "A", "a@corp.io", none, some "SE1", none, none, none⟩,
       ⟨"Bob", "B", "b@corp.io", none, some "OWNER", none, none, some "A"⟩] := by
  constructor
  · have hup : upload_users []
        [⟨some "A", some "Alice", some "a@corp.io", none, some "SE1", none, none, none⟩,
         ⟨some "B", some "Bob", some "b@corp.io", none, some "OWNER", none, none, some "A"⟩] =
        .ok ([⟨"Alice", "A", "a@corp.io", none, some "SE1", none, none, none⟩,
              ⟨"Bob", "B", "b@corp.io", none, some "OWNER", none, none, some "A"⟩], 2, 0) := by
      rfl
    exact UserWritesReach.upload UserWritesReach.nil hup
  · intro h
    exact absurd
      (h ⟨"Bob", "B", "b@corp.io", none, some "OWNER", none, none, some "A"⟩
        (by decide))
      (by decide)

/-- Amended claim C3 (theorem): in every store reachable from empty
through `create_user` alone, every non-null, non-empty manager reference
satisfies the rank invariant (strictly greater manager rank, or
self-management at rank ≥ 5 — which in fact cannot arise at creation).
The original claim fails for `update_user` (a designation or emp_id
change is not revalidated against existing references) and for the bulk
CSV ingestion (no validation at all, see the counterexample); empty-string
references are exempt because the truthiness guard skips validation. -/
theorem C3_create_only_invariant {db : List User} (h : CreateOnlyReach db) :
    ManagerRankInvariantNonempty db := by
  induction h with
  | nil => intro u hu; cases hu
  | @create db0 db' u0 hr hok ih =>
    obtain ⟨heq, hfresh, hval⟩ := create_user_ok hok
    subst heq
    intro w hw
    rcases List.mem_append.mp hw with hold | hnew
    · exact managerRefOkNonempty_append (ih _ hold)
    · rw [List.mem_singleton] at hnew
      subst hnew
      cases hm : w.manager_id with
      | none =>
        simp [managerRefOkNonempty, managerRefOk, hm]
      | some mid =>
        by_cases hmid : mid = ""
        · subst hmid
          simp [managerRefOkNonempty, hm]
        · have htruthy : optTruthy w.manager_id = true := by
            simp [optTruthy, hm, hmid]
          obtain ⟨v, hvval⟩ := hval htruthy
          rw [hm] at hvval
          simp only [Option.getD_some] at hvval
          obtain ⟨m, hfm, hcase⟩ := validate_manager_ok hvval
          rcases hcase with ⟨hc, _⟩ | ⟨_, hrank⟩
          · exfalso
            have hid : w.emp_id = mid := by
              rw [Bool.and_eq_true] at hc
              simpa using hc.2
            rw [← hid] at hfm
            rw [hfresh] at hfm
            cases hfm
          · unfold managerRefOkNonempty managerRefOk
            have hfm' : findUser (db0 ++ [w]) mid = some m := find?_append_of_some hfm
            simp [hm, hfm', hrank]

/-- Witness for the amended C3 on a concrete two-creation store
(CTO created first, then an SE1 reporting to the CTO). -/
theorem C3_create_only_invariant_witness :
    ManagerRankInvariantNonempty
      [⟨"Alice", "A", "a@corp.io", none, some "CTO", none, none, none⟩,
       ⟨"Bob", "B", "b@corp.io", none, some "SE1", none, none, some "A"⟩] :=
  C3_create_only_invariant
    (CreateOnlyReach.create
      (CreateOnlyReach.create CreateOnlyReach.nil
        (by rfl :
          create_user [] ⟨"Alice", "A", "a@corp.io", none, some "CTO", none, none, none⟩ =
            .ok [⟨"Alice", "A", "a@corp.io", none, some "CTO", none, none, none⟩]))
      (by rfl :
        create_user [⟨"Alice", "A", "a@corp.io", none, some "CTO", none, none, none⟩]
          ⟨"Bob", "B", "b@corp.io", none, some "SE1", none, none, some "A"⟩ =
          .ok [⟨"Alice", "A", "a@corp.io", none, some "CTO", none, none, none⟩,
               ⟨"Bob", "B", "b@corp.io", none, some "SE1", none, none, some "A"⟩]))

/-- `assigneeOk` survives appending fresh user records. -/
theorem assigneeOk_append {users l : List User} {t : Task}
    (h : assigneeOk users t = true) : assigneeOk (users ++ l) t = true := by
  unfold assigneeOk at h ⊢
  cases hta : t.task_assigned_to with
  | none => simp only [hta] at h; cases h
  | some aid =>
    simp only [hta] at h ⊢
    cases hf : findUser users aid with
    | none => rw [hf] at h; cases h
    | some e =>
      rw [hf] at h
      have hf' : findUser (users ++ l) aid = some e := find?_append_of_some hf
      rw [hf']
      exact h

/-- Assembling `assigneeOk` from the facts a successful eligibility-guarded
write establishes. -/
theorem assigneeOk_of_parts {users : List User} {ta : Option String}
    (htruthy : optTruthy ta = true) {e : User}
    (hfind : findUser users (ta.getD "") = some e)
    (hrank : get_rank e.emp_designation < 4) :
    ∀ t : Task, t.task_assigned_to = ta → assigneeOk users t = true := by
  intro t hta
  obtain ⟨aid, rfl⟩ : ∃ aid, ta = some aid := by
    cases ta with
    | none => cases htruthy
    | some a => exact ⟨a, rfl⟩
  simp only [Option.getD_some] at hfind
  simp [assigneeOk, hta, hfind, hrank]

/-- Counterexample to claim C8: create an SE1, create a task assigned to
them (eligibility passes), then update the user's designation to EM — an
update the core accepts without revisiting tasks. The resulting store,
reachable through the claim's write operations, holds a task assigned to
a rank-4 employee. -/
theorem C8_counterexample :
    StoreReach
      ⟨[⟨"Eve", "E", "e@corp.io", none, some "EM", none, none, none⟩],
       [⟨"T1", "task one", none, none, some "E", none, none, none, none, none,
         none, none, none, some "5"⟩]⟩ ∧
    ¬ TaskAssigneeInvariant
      ⟨[⟨"Eve", "E", "e@corp.io", none, some "EM", none, none, none⟩],
       [⟨"T1", "task one", none, none, some "E", none, none, none, none, none,
         none, none, none, some "5"⟩]⟩ := by
  constructor
  · have r1 : StoreReach ⟨[⟨"Eve", "E", "e@corp.io", none, some "SE1", none, none, none⟩], []⟩ :=
      StoreReach.createUser StoreReach.nil
        (by rfl :
          create_user [] ⟨"Eve", "E", "e@corp.io", none, some "SE1", none, none, none⟩ =
            .ok [⟨"Eve", "E", "e@corp.io", none, some "SE1", none, none, none⟩])
    have r2 : StoreReach
        ⟨[⟨"Eve", "E", "e@corp.io", none, some "SE1", none, none, none⟩],
         [⟨"T1", "task one", none, none, some "E", none, none, none, none, none,
           none, none, none, some "5"⟩]⟩ :=
      StoreReach.createTask r1
        (by rfl :
          create_task [⟨"Eve", "E", "e@corp.io", none, some "SE1", none, none, none⟩] []
            ⟨some "T1", "task one", none, none, some "E", none, none, none, none, none,
             none, none, none, some "5"⟩ "G" =
            .ok [⟨"T1", "task one", none, none, some "E", none, none, none, none, none,
              none, none, none, some "5"⟩])
    exact StoreReach.updateUser r2
      (by rfl :
        update_user [⟨"Eve", "E", "e@corp.io", none, some "SE1", none, none, none⟩] "E"
          ⟨none, none, none, none, some "EM", none, none, none⟩ =
          .ok [⟨"Eve", "E", "e@corp.io", none, some "EM", none, none, none⟩])
  · intro h
    exact absurd
      (h ⟨"T1", "task one", none, none, some "E", none, none, none, none, none,
          none, none, none, some "5"⟩ (List.mem_singleton_self _))
      (by decide)

/-- Amended claim C8 (theorem): in every store reachable from empty
through task create, task update, bulk task import and user create —
i.e. the claim's write set minus `update_user` — every task's
`assigned_to` references a stored employee of rank strictly below 4.
The original claim fails because `update_user` can raise an assignee's
designation (or change their emp_id) without revisiting tasks. -/
theorem C8_no_update_invariant {s : Store} (h : StoreReachNoUserUpdate s) :
    TaskAssigneeInvariant s := by
  induction h with
  | nil => intro t ht; cases ht
  | createUser hr hok ih =>
    obtain ⟨heq, -, -⟩ := create_user_ok hok
    subst heq
    intro t ht
    exact assigneeOk_append (ih t ht)
  | createTask hr hok ih =>
    obtain ⟨heq, htruthy, e, hfind, hrank⟩ := create_task_ok hok
    subst heq
    intro t ht
    rcases List.mem_append.mp ht with hold | hnew
    · exact ih t hold
    · rw [List.mem_singleton] at hnew
      subst hnew
      exact assigneeOk_of_parts htruthy hfind hrank _ rfl
  | updateTask hr hok ih =>
    obtain ⟨dbTask, -, heq, htruthy, e, hfind, hrank⟩ := update_task_ok hok
    subst heq
    intro t ht
    rcases mem_replaceFirstTask ht with hold | hnew
    · exact ih t hold
    · subst hnew
      exact assigneeOk_of_parts htruthy hfind hrank _ rfl
  | uploadTasks hr hok ih =>
    obtain ⟨validated, hval, heq⟩ := upload_tasks_ok hok
    subst heq
    intro t ht
    rcases List.mem_append.mp ht with hold | hnew
    · exact ih t hold
    · exact validateTaskRows_ok hval t hnew

/-- Witness for the amended C8 on a concrete store: one SE1 user and one
task assigned to them, built by create operations. -/
theorem C8_no_update_invariant_witness :
    TaskAssigneeInvariant
      ⟨[⟨"Eve", "E", "e@corp.io", none, some "SE1", none, none, none⟩],
       [⟨"T1", "task one", none, none, some "E", none, none, none, none, none,
         none, none, none, some "5"⟩]⟩ :=
  C8_no_update_invariant
    (StoreReachNoUserUpdate.createTask
      (StoreReachNoUserUpdate.createUser StoreReachNoUserUpdate.nil
        (by rfl :
          create_user [] ⟨"Eve", "E", "e@corp.io", none, some "SE1", none, none, none⟩ =
            .ok [⟨"Eve", "E", "e@corp.io", none, some "SE1", none, none, none⟩]))
      (by rfl :
        create_task [⟨"Eve", "E", "e@corp.io", none, some "SE1", none, none, none⟩] []
          ⟨some "T1", "task one", none, none, some "E", none, none, none, none, none,
           none, none, none, some "5"⟩ "G" =
          .ok [⟨"T1", "task one", none, none, some "E", none, none, none, none, none,
            none, none, none, some "5"⟩]))

/-- Counterexample to claim C2: on a store with a CTO `"A"` managing an
SE1 `"B"`, listing users scoped to `"A"` returns only `"B"`. The claim
requires the result to be the persisted users inside
`display_scope = view_scope_of("A")` — which contains `"A"` itself — yet
the stored user `"A"` is missing from the result: the endpoint filters
by `get_all_subordinates` (strict subordinates), not by the View-Scope
Calculator, and applies no caller-scope authorization (it has no caller
parameter at all). -/
theorem C2_counterexample :
    get_users
      [⟨"Alice", "A", "a@corp.io", none, some "CTO", none, none, none⟩,
       ⟨"Bob", "B", "b@corp.io", none, some "SE1", none, none, some "A"⟩]
      (some "A") 3 =
      some [⟨"Bob", "B", "b@corp.io", none, some "SE1", none, none, some "A"⟩] ∧
    get_user_view_scope
      [⟨"Alice", "A", "a@corp.io", none, some "CTO", none, none, none⟩,
       ⟨"Bob", "B", "b@corp.io", none, some "SE1", none, none, some "A"⟩] 3 "A" =
      some ({"A"} ∪ {"B"}) ∧
    (⟨"Alice", "A", "a@corp.io", none, some "CTO", none, none, none⟩ : User) ∈
      [⟨"Alice", "A", "a@corp.io", none, some "CTO", none, none, none⟩,
       ⟨"Bob", "B", "b@corp.io", none, some "SE1", none, none, some "A"⟩] ∧
    (⟨"Alice", "A", "a@corp.io", none, some "CTO", none, none, none⟩ : User).emp_id ∈
      ({"A"} ∪ {"B"} : Finset String) ∧
    (⟨"Alice", "A", "a@corp.io", none, some "CTO", none, none, none⟩ : User) ∉
      [⟨"Bob", "B", "b@corp.io", none, some "SE1", none, none, some "A"⟩] := by
  decide

/-- Amended claim C2 (theorem): the user-listing endpoint applies no
caller-side authorization (it has no caller parameter) and does not use
the View-Scope Calculator: with an absent or empty `user_id` it returns
every persisted user; with a truthy `user_id` it returns exactly the
persisted users whose emp_id is a strict transitive subordinate of
`user_id` — the target root itself is never included. -/
theorem C2_get_users (db : List User) (userId : Option String) (fuel : Nat) :
    (optTruthy userId = false → get_users db userId fuel = some db) ∧
    (optTruthy userId = true →
      ∀ S, get_all_subordinates db fuel (userId.getD "") = some S →
        get_users db userId fuel =
          some (db.filter (fun u => decide (u.emp_id ∈ S)))) ∧
    (optTruthy userId = true → CycleFree db →
      ∃ S, get_all_subordinates db (db.length + 1) (userId.getD "") = some S ∧
        get_users db userId (db.length + 1) =
          some (db.filter (fun u => decide (u.emp_id ∈ S))) ∧
        (∀ i, i ∈ S ↔ ∃ w, w ∈ db ∧ w.emp_id = i ∧
          ChainReaches db w (userId.getD "")) ∧
        userId.getD "" ∉ S) := by
  refine ⟨?_, ?_, ?_⟩
  · intro h
    simp [get_users, h]
  · intro h S hS
    simp [get_users, h, hS]
  · intro h hcf
    obtain ⟨S, hS, hmem⟩ := cycleFree_subs_total hcf (userId.getD "")
    refine ⟨S, hS, by simp [get_users, h, hS], hmem, ?_⟩
    intro hx
    obtain ⟨u, hu, hui, hc⟩ := (hmem _).mp hx
    exact hcf u hu (by rw [hui]; exact hc)

/-- Witness for the amended C2 on the concrete CTO/SE1 store. -/
theorem C2_get_users_witness :
    get_users
      [⟨"Alice", "A", "a@corp.io", none, some "CTO", none, none, none⟩,
       ⟨"Bob", "B", "b@corp.io", none, some "SE1", none, none, some "A"⟩]
      (some "A") 3 =
      some (([⟨"Alice", "A", "a@corp.io", none, some "CTO", none, none, none⟩,
        ⟨"Bob", "B", "b@corp.io", none, some "SE1", none, none, some "A"⟩] :
          List User).filter
        (fun u => decide (u.emp_id ∈ ({"B"} : Finset String)))) :=
  (C2_get_users
    [⟨"Alice", "A", "a@corp.io", none, some "CTO", none, none, none⟩,
     ⟨"Bob", "B", "b@corp.io", none, some "SE1", none, none, some "A"⟩]
    (some "A") 3).2.1 (by decide) {"B"} (by decide)

/-- Counterexample to claim C4: with caller `"A"` (a CTO whose view scope
is `{"A", "B"}`) and the provided target `user_id = ""`, the claim
requires an empty result (the target root `""` is not in the caller's
scope), but the code treats the empty string as "not provided" (Python
truthiness), silently retargets the query at the caller, and returns the
caller's task. -/
theorem C4_counterexample :
    get_tasks
      [⟨"Alice", "A", "a@corp.io", none, some "CTO", none, none, none⟩,
       ⟨"Bob", "B", "b@corp.io", none, some "SE1", none, none, some "A"⟩]
      [⟨"T1", "task one", none, none, some "A", none, none, none, none, none,
        none, none, none, some "5"⟩]
      "A" (some "") 3 =
      some [⟨"T1", "task one", none, none, some "A", none, none, none, none, none,
        none, none, none, some "5"⟩] ∧
    get_user_view_scope
      [⟨"Alice", "A", "a@corp.io", none, some "CTO", none, none, none⟩,
       ⟨"Bob", "B", "b@corp.io", none, some "SE1", none, none, some "A"⟩] 3 "A" =
      some ({"A"} ∪ {"B"}) ∧
    "" ∉ ({"A"} ∪ {"B"} : Finset String) ∧
    ([⟨"T1", "task one", none, none, some "A", none, none, none, none, none,
       none, none, none, some "5"⟩] : List Task) ≠ [] := by
  decide

/-- Amended claim C4 (theorem): with `target_root = target_id` when the
latter is provided and non-empty, else `caller_id`: if `target_root` is
not in `view_scope_of(caller)` the task listing returns an empty result
with no error; otherwise it returns exactly the tasks whose assignee lies
in `view_scope_of(target_root)`. -/
theorem C4_get_tasks (users : List User) (tasks : List Task) (callerId : String)
    (userId : Option String) (fuel : Nat) (cs : Finset String)
    (hcs : get_user_view_scope users fuel callerId = some cs) :
    ((if optTruthy userId then userId.getD "" else callerId) ∉ cs →
      get_tasks users tasks callerId userId fuel = some []) ∧
    (∀ ds, (if optTruthy userId then userId.getD "" else callerId) ∈ cs →
      get_user_view_scope users fuel
        (if optTruthy userId then userId.getD "" else callerId) = some ds →
      get_tasks users tasks callerId userId fuel =
        some (tasks.filter (fun t =>
          match t.task_assigned_to with
          | some a => decide (a ∈ ds)
          | none => false))) := by
  constructor
  · intro hnot
    simp [get_tasks, hcs, hnot]
  · intro ds hin hds
    simp [get_tasks, hcs, hin, hds]

/-- Witness for the amended C4: the low-rank caller `"B"` asking for
`"A"`'s tasks is silently denied with an empty result. -/
theorem C4_get_tasks_witness :
    get_tasks
      [⟨"Alice", "A", "a@corp.io", none, some "CTO", none, none, none⟩,
       ⟨"Bob", "B", "b@corp.io", none, some "SE1", none, none, some "A"⟩]
      [⟨"T1", "task one", none, none, some "A", none, none, none, none, none,
        none, none, none, some "5"⟩]
      "B" (some "A") 3 = some [] :=
  (C4_get_tasks
    [⟨"Alice", "A", "a@corp.io", none, some "CTO", none, none, none⟩,
     ⟨"Bob", "B", "b@corp.io", none, some "SE1", none, none, some "A"⟩]
    [⟨"T1", "task one", none, none, some "A", none, none, none, none, none,
      none, none, none, some "5"⟩]
    "B" (some "A") 3 {"B"} (by decide)).1 (by decide)

end AutomationBackend
